import Mathlib

/-!
# Triton: the triggered instruction-processing pipeline

A shallow embedding of `src/core/main.cpp`: the per-instruction `callback`,
its pre/post configuration steps `applyPyConfBefore` / `applyPyConfAfter`,
the symbol hooks installed by `IMG_Instrumentation`, and `toggleWrapper`.

The three globals of the source (`ap`, `trace`, `analysisTrigger`) become the
fields of an explicit `State` that every function takes and returns.  A call
to `exit(1)` is an `Outcome.exit` carrying the state at termination.

The classes the file uses but does not define (`Trigger`, `AnalysisProcessor`,
`Trace`, `IRBuilder`, `PyTritonOptions`) are modelled from the specification;
`IRBuilder::process` and the Python callables are left as arbitrary functions.
-/

namespace Triton

/-! ## Basic types -/

/-- Pin's `ADDRINT` / `uint64_t` addresses. No arithmetic is performed on them by the code. -/
abbrev ADDRINT := Nat

/-- Pin's `THREADID`. -/
abbrev THREADID := Nat

/-- Register identifiers (`uint64_t` in the configuration lists). The identifiers range over
the registers the taint processor knows; the fatal path the specification prescribes for an
unknown identifier lies inside `AnalysisProcessor` and is outside this development. -/
abbrev RegId := Nat

/-- Result of a computation that may call `exit`: either it returns with a state, or the
process terminates with an exit code, the state being the one reached at that moment. -/
inductive Outcome (σ : Type) where
  | ret (s : σ) : Outcome σ
  | exit (code : Nat) (s : σ) : Outcome σ

/-- State carried by an outcome (the state at return or at termination). -/
def Outcome.state {σ : Type} : Outcome σ → σ
  | Outcome.ret s => s
  | Outcome.exit _ s => s

/-- Whether the outcome is a process termination. -/
def Outcome.exited {σ : Type} : Outcome σ → Bool
  | Outcome.ret _ => false
  | Outcome.exit _ _ => true

/-- Sequencing: code after an `exit` does not run. -/
def Outcome.bind {σ : Type} (o : Outcome σ) (f : σ → Outcome σ) : Outcome σ :=
  match o with
  | Outcome.ret s => f s
  | Outcome.exit c s => Outcome.exit c s

/-! ## Collaborators modelled from the specification -/

/-- Modelled from the spec: `Trigger.h` is not part of the sources. The specification gives
a Trigger a single boolean `active` (data model), with no intermediate states. -/
structure Trigger where
  active : Bool

/-- Modelled from the spec: `Trigger::update` is missing; "`update(bool)` sets active state
unconditionally". -/
def Trigger.update (_t : Trigger) (flag : Bool) : Trigger :=
  { active := flag }

/-- Modelled from the spec: `Trigger::getState` is missing; "`getState() -> bool` returns
current state". -/
def Trigger.getState (t : Trigger) : Bool :=
  t.active

/-- Modelled from the spec: `AnalysisProcessor.h` is missing. The taint state is a "mapping
from register identifier (and, conceptually, memory location) to a tainted/untainted flag". -/
structure AnalysisProcessor where
  taintedReg : RegId → Bool
  taintedMem : ADDRINT → Bool

/-- Modelled from the spec: `AnalysisProcessor::taintReg` is missing; an idempotent mutation
of the taint map that marks register `id` tainted. -/
def AnalysisProcessor.taintReg (ap : AnalysisProcessor) (id : RegId) : AnalysisProcessor :=
  { ap with taintedReg := fun r => if r = id then true else ap.taintedReg r }

/-- Modelled from the spec: `AnalysisProcessor::untaintReg` is missing; an idempotent
mutation of the taint map that marks register `id` untainted. -/
def AnalysisProcessor.untaintReg (ap : AnalysisProcessor) (id : RegId) : AnalysisProcessor :=
  { ap with taintedReg := fun r => if r = id then false else ap.taintedReg r }

/-- Modelled from the spec: `AnalysisProcessor::isTainted` is missing; reads the flag of
register `id`. -/
def AnalysisProcessor.isTainted (ap : AnalysisProcessor) (id : RegId) : Bool :=
  ap.taintedReg id

/-- Modelled from the spec: `Trace.h` is missing. A Trace is an "ordered sequence of
processed-instruction records", oldest first. -/
structure Trace (Inst : Type) where
  instructions : List Inst

/-- Modelled from the spec: `Trace::addInstruction` is missing; "`addInstruction(record)`
appends in call order". -/
def Trace.addInstruction {Inst : Type} (t : Trace Inst) (inst : Inst) : Trace Inst :=
  { instructions := t.instructions ++ [inst] }

/-- Modelled from the spec: `IRBuilder.h` is missing. An IRBuilder binds an instruction
address (immutable) and, once `setup` has run, the effective address of its memory operand. -/
structure IRBuilder where
  address : ADDRINT
  effectiveAddress : Option ADDRINT

/-- Modelled from the spec: `IRBuilder::getAddress` is missing; "stable, set at
construction". -/
def IRBuilder.getAddress (irb : IRBuilder) : ADDRINT :=
  irb.address

/-- Modelled from the spec: `IRBuilder::setup` is missing; "records the concrete address
touched by the instruction's memory operand for this dynamic execution". -/
def IRBuilder.setup (irb : IRBuilder) (ea : ADDRINT) : IRBuilder :=
  { irb with effectiveAddress := some ea }

/-- The context handler built on line 90: `PINContextHandler ctxH(ctx, threadId)`. -/
structure PINContextHandler (CONTEXT : Type) where
  ctx : CONTEXT
  threadId : THREADID

/-- A Python callable as the core sees it: `PyObject_CallObject(cb, (address, threadId))`
either returns an object (`true`) or `NULL` (`false`). What the callable does on the Python
side is not modelled: the configuration and the analysis state are taken not to change
during the call. -/
abbrev PyCallable := ADDRINT → THREADID → Bool

/-- Modelled from the spec: `PythonBindings.h` is missing. The configuration surface read by
`main.cpp`: the start symbol, the start/stop address sets (`std::set`, only membership is
tested), the per-address register lists (`std::map` read with `operator[]`, which yields an
empty list for an address without an entry), the two optional callbacks and the dump flags. -/
structure PyTritonOptions where
  startAnalysisFromSymbol : Option String
  startAnalysisFromAddr : List ADDRINT
  stopAnalysisFromAddr : List ADDRINT
  taintRegFromAddr : ADDRINT → List RegId
  untaintRegFromAddr : ADDRINT → List RegId
  callbackBefore : Option PyCallable
  callbackAfter : Option PyCallable
  dumpTrace : Bool
  dumpStats : Bool

/-- The parts of the analysis the orchestrator calls but does not implement:
`IRBuilder::process`, which reads the context, reads and mutates the taint processor and
returns the processed-instruction record. It is total: the specification requires a
degraded record, not an abort, for unmodelled instructions. -/
structure Env (CONTEXT Inst : Type) where
  process : IRBuilder → PINContextHandler CONTEXT → AnalysisProcessor → Inst × AnalysisProcessor

/-- One invocation of an IRBuilder method by the orchestrator. -/
inductive IRCall where
  | setup (address : ADDRINT) (ea : ADDRINT) : IRCall
  | process (address : ADDRINT) : IRCall
  deriving DecidableEq

/-- The globals of `main.cpp` (lines 22-24): `ap`, `trace`, `analysisTrigger`; together
with `irCalls`, a history of the IRBuilder methods invoked so far. The history is not
program state (nothing reads it); it makes "`process` is not called" expressible. -/
structure State (Inst : Type) where
  ap : AnalysisProcessor
  trace : Trace Inst
  analysisTrigger : Trigger
  irCalls : List IRCall

/-! ## The functions of `main.cpp` -/

section Code

variable {CONTEXT Inst : Type}

/-- Lines 29-62. The start check, then the stop check, then the taint list, then the
untaint list, then the pre-instruction callback, called only when the Trigger is active and
a callback is configured; a `NULL` result is `exit(1)`. -/
def applyPyConfBefore (conf : PyTritonOptions) (irb : IRBuilder) (_ctx : CONTEXT)
    (threadId : THREADID) (st : State Inst) : Outcome (State Inst) :=
  let st1 : State Inst :=
    if irb.getAddress ∈ conf.startAnalysisFromAddr then
      { st with analysisTrigger := st.analysisTrigger.update true }
    else st
  let st2 : State Inst :=
    if irb.getAddress ∈ conf.stopAnalysisFromAddr then
      { st1 with analysisTrigger := st1.analysisTrigger.update false }
    else st1
  let regsTainted := conf.taintRegFromAddr irb.getAddress
  let st3 : State Inst :=
    { st2 with ap := regsTainted.foldl (fun ap r => ap.taintReg r) st2.ap }
  let regsUntainted := conf.untaintRegFromAddr irb.getAddress
  let st4 : State Inst :=
    { st3 with ap := regsUntainted.foldl (fun ap r => ap.untaintReg r) st3.ap }
  if st4.analysisTrigger.getState then
    match conf.callbackBefore with
    | some cb => if cb irb.getAddress threadId then Outcome.ret st4 else Outcome.exit 1 st4
    | none => Outcome.ret st4
  else Outcome.ret st4

/-- Lines 65-78. The post-instruction callback, called only when the Trigger is active and
a callback is configured; a `NULL` result is `exit(1)`. -/
def applyPyConfAfter (conf : PyTritonOptions) (irb : IRBuilder) (_ctx : CONTEXT)
    (threadId : THREADID) (st : State Inst) : Outcome (State Inst) :=
  if st.analysisTrigger.getState then
    match conf.callbackAfter with
    | some cb => if cb irb.getAddress threadId then Outcome.ret st else Outcome.exit 1 st
    | none => Outcome.ret st
  else Outcome.ret st

/-- Lines 92-93: `if (hasEA) irb->setup(ea);`, with the call noted in the history. -/
def setupIfEA (irb : IRBuilder) (hasEA : Bool) (ea : ADDRINT) (st : State Inst) :
    IRBuilder × State Inst :=
  if hasEA then
    (irb.setup ea, { st with irCalls := st.irCalls ++ [IRCall.setup irb.getAddress ea] })
  else (irb, st)

/-- Line 95: `trace.addInstruction(irb->process(ctxH, ap));`, with the call noted in the
history. -/
def processAndAdd (env : Env CONTEXT Inst) (irb : IRBuilder) (ctxH : PINContextHandler CONTEXT)
    (st : State Inst) : State Inst :=
  let r := env.process irb ctxH st.ap
  { st with
    ap := r.2
    trace := st.trace.addInstruction r.1
    irCalls := st.irCalls ++ [IRCall.process irb.getAddress] }

/-- Lines 81-99. Pre-configuration, the Trigger gate, then setup, process, append, and
post-configuration. -/
def callback (conf : PyTritonOptions) (env : Env CONTEXT Inst) (irb : IRBuilder) (ctx : CONTEXT)
    (hasEA : Bool) (ea : ADDRINT) (threadId : THREADID) (st : State Inst) :
    Outcome (State Inst) :=
  (applyPyConfBefore conf irb ctx threadId st).bind fun st1 =>
    if !st1.analysisTrigger.getState then Outcome.ret st1
    else
      let ctxH : PINContextHandler CONTEXT := { ctx := ctx, threadId := threadId }
      let s := setupIfEA irb hasEA ea st1
      let st2 := processAndAdd env s.1 ctxH s.2
      applyPyConfAfter conf s.1 ctx threadId st2

/-- Lines 129-132. -/
def toggleWrapper (flag : Bool) (st : State Inst) : State Inst :=
  { st with analysisTrigger := st.analysisTrigger.update flag }

/-- The arguments Pin passes to `callback` for one executed instruction (lines 109-123):
the IRBuilder of the instruction, the machine context, whether a memory operand exists and
its effective address, and the executing thread. -/
structure InsEvent (CONTEXT : Type) where
  irb : IRBuilder
  ctx : CONTEXT
  hasEA : Bool
  ea : ADDRINT
  threadId : THREADID

/-- The callback applied to the arguments of one instruction event. -/
def callbackEv (conf : PyTritonOptions) (env : Env CONTEXT Inst) (ev : InsEvent CONTEXT)
    (st : State Inst) : Outcome (State Inst) :=
  callback conf env ev.irb ev.ctx ev.hasEA ev.ea ev.threadId st

/-- A single-threaded run: the instruction events are handed to `callback` one by one, in
execution order; nothing runs after an `exit`. -/
def runCallbacks (conf : PyTritonOptions) (env : Env CONTEXT Inst) :
    State Inst → List (InsEvent CONTEXT) → Outcome (State Inst)
  | st, [] => Outcome.ret st
  | st, ev :: evs => (callbackEv conf env ev st).bind fun st1 => runCallbacks conf env st1 evs

/-- Pin's insertion points for a routine call. -/
inductive IPOINT where
  | BEFORE : IPOINT
  | AFTER : IPOINT
  deriving DecidableEq

/-- One `RTN_InsertCall(targetRTN, ipoint, toggleWrapper, IARG_BOOL, flag, IARG_END)`. -/
structure RtnCall where
  ipoint : IPOINT
  flag : Bool
  deriving DecidableEq

/-- An image, as far as `RTN_FindByName` is concerned: the names of the routines it
defines. -/
abbrev IMG := List String

/-- Lines 135-159. Nothing is installed without a configured start symbol, or when the
symbol does not resolve in the image; otherwise `toggleWrapper(true)` is inserted before the
routine and `toggleWrapper(false)` after it. The result lists the inserted calls. -/
def IMG_Instrumentation (conf : PyTritonOptions) (img : IMG) : List RtnCall :=
  match conf.startAnalysisFromSymbol with
  | none => []
  | some name =>
    if name ∈ img then
      [{ ipoint := IPOINT.BEFORE, flag := true }, { ipoint := IPOINT.AFTER, flag := false }]
    else []

/-- The events the instrumentation substrate delivers during a run: an executed
instruction, the entry of the target routine, the return from the target routine. -/
inductive PinEvent (CONTEXT : Type) where
  | ins (ev : InsEvent CONTEXT) : PinEvent CONTEXT
  | rtnEntry : PinEvent CONTEXT
  | rtnExit : PinEvent CONTEXT

/-- Pin runs the calls inserted at an insertion point, in insertion order. -/
def fireRtn (calls : List RtnCall) (p : IPOINT) (st : State Inst) : State Inst :=
  (calls.filter fun c => c.ipoint = p).foldl (fun s c => toggleWrapper c.flag s) st

/-- Dispatch of one substrate event to the handler registered for it. -/
def handleEvent (conf : PyTritonOptions) (env : Env CONTEXT Inst) (calls : List RtnCall) :
    PinEvent CONTEXT → State Inst → Outcome (State Inst)
  | PinEvent.ins ev, st => callbackEv conf env ev st
  | PinEvent.rtnEntry, st => Outcome.ret (fireRtn calls IPOINT.BEFORE st)
  | PinEvent.rtnExit, st => Outcome.ret (fireRtn calls IPOINT.AFTER st)

/-- A single-threaded run over instruction events and routine hooks. -/
def runEvents (conf : PyTritonOptions) (env : Env CONTEXT Inst) (calls : List RtnCall) :
    State Inst → List (PinEvent CONTEXT) → Outcome (State Inst)
  | st, [] => Outcome.ret st
  | st, ev :: evs =>
    (handleEvent conf env calls ev st).bind fun st1 => runEvents conf env calls st1 evs

end Code

/-! ## Specification-side descriptions

Closed forms, written from the wording of the specification, against which the code above is
compared. -/

section Spec

variable {CONTEXT Inst : Type}

/-- Trigger value at the gate of an instruction at address `a`, when the Trigger held `s`
before the event: inactive at a stop address, else active at a start address, else `s`. -/
def gateAfter (conf : PyTritonOptions) (s : Bool) (a : ADDRINT) : Bool :=
  if a ∈ conf.stopAnalysisFromAddr then false
  else if a ∈ conf.startAnalysisFromAddr then true
  else s

/-- The taint state `ap` "with `T` added and then `U` removed". -/
def addThenRemove (T U : List RegId) (ap : AnalysisProcessor) : AnalysisProcessor :=
  { ap with
    taintedReg := fun r => if r ∈ U then false else if r ∈ T then true else ap.taintedReg r }

/-- The taint state after the per-address directives of address `a`. -/
def directed (conf : PyTritonOptions) (a : ADDRINT) (ap : AnalysisProcessor) :
    AnalysisProcessor :=
  addThenRemove (conf.taintRegFromAddr a) (conf.untaintRegFromAddr a) ap

/-- No configured callback ever signals failure. -/
def NoFail (conf : PyTritonOptions) : Prop :=
  (∀ cb, conf.callbackBefore = some cb → ∀ a t, cb a t = true) ∧
  (∀ cb, conf.callbackAfter = some cb → ∀ a t, cb a t = true)

/-- The IRBuilder as `process` receives it: after `setup(ea)` when the instruction has a
memory operand. -/
def builtIrb (ev : InsEvent CONTEXT) : IRBuilder :=
  if ev.hasEA then ev.irb.setup ev.ea else ev.irb

/-- The result of `process` for event `ev` when the taint state before the event is `ap`:
the directives of the address are applied first. -/
def processed (conf : PyTritonOptions) (env : Env CONTEXT Inst) (ev : InsEvent CONTEXT)
    (ap : AnalysisProcessor) : Inst × AnalysisProcessor :=
  env.process (builtIrb ev) { ctx := ev.ctx, threadId := ev.threadId }
    (directed conf ev.irb.getAddress ap)

/-- The Trigger values at the gates of a sequence of instruction events, the Trigger holding
`s` before the first of them. -/
def gates (conf : PyTritonOptions) : Bool → List (InsEvent CONTEXT) → List Bool
  | _, [] => []
  | s, ev :: evs =>
    gateAfter conf s ev.irb.getAddress :: gates conf (gateAfter conf s ev.irb.getAddress) evs

/-- The Trigger value after a sequence of instruction events. -/
def triggerAfter (conf : PyTritonOptions) : Bool → List (InsEvent CONTEXT) → Bool
  | s, [] => s
  | s, ev :: evs => triggerAfter conf (gateAfter conf s ev.irb.getAddress) evs

/-- The records expected in the Trace for a sequence of instruction events: one for each
event whose gate is active, in the order of the events. -/
def expectedRecords (conf : PyTritonOptions) (env : Env CONTEXT Inst) :
    Bool → AnalysisProcessor → List (InsEvent CONTEXT) → List Inst
  | _, _, [] => []
  | s, ap, ev :: evs =>
    if gateAfter conf s ev.irb.getAddress then
      (processed conf env ev ap).1 ::
        expectedRecords conf env true (processed conf env ev ap).2 evs
    else expectedRecords conf env false (directed conf ev.irb.getAddress ap) evs

/-- The taint state expected after a sequence of instruction events. -/
def taintAfter (conf : PyTritonOptions) (env : Env CONTEXT Inst) :
    Bool → AnalysisProcessor → List (InsEvent CONTEXT) → AnalysisProcessor
  | _, ap, [] => ap
  | s, ap, ev :: evs =>
    if gateAfter conf s ev.irb.getAddress then
      taintAfter conf env true (processed conf env ev ap).2 evs
    else taintAfter conf env false (directed conf ev.irb.getAddress ap) evs

/-- The records of a sequence of instruction events when every one of them is processed. -/
def recordAll (conf : PyTritonOptions) (env : Env CONTEXT Inst) :
    AnalysisProcessor → List (InsEvent CONTEXT) → List Inst
  | _, [] => []
  | ap, ev :: evs => (processed conf env ev ap).1 :: recordAll conf env (processed conf env ev ap).2 evs

/-- The state `applyPyConfBefore` reaches at address `a` (whether it returns or exits). -/
def preState (conf : PyTritonOptions) (a : ADDRINT) (st : State Inst) : State Inst :=
  { st with
    ap := directed conf a st.ap
    analysisTrigger := { active := gateAfter conf st.analysisTrigger.getState a } }

/-- Whether the pre-instruction callback, if configured, fails on `(a, tid)`. -/
def beforeFails (conf : PyTritonOptions) (a : ADDRINT) (tid : THREADID) : Bool :=
  match conf.callbackBefore with
  | some cb => !cb a tid
  | none => false

/-- Whether the post-instruction callback, if configured, fails on `(a, tid)`. -/
def afterFails (conf : PyTritonOptions) (a : ADDRINT) (tid : THREADID) : Bool :=
  match conf.callbackAfter with
  | some cb => !cb a tid
  | none => false

/-- The state after line 95 for an event whose gate is active. -/
def postState (conf : PyTritonOptions) (env : Env CONTEXT Inst) (ev : InsEvent CONTEXT)
    (st : State Inst) : State Inst :=
  { ap := (processed conf env ev st.ap).2
    trace := st.trace.addInstruction (processed conf env ev st.ap).1
    analysisTrigger := { active := true }
    irCalls := st.irCalls ++
      (if ev.hasEA then [IRCall.setup ev.irb.getAddress ev.ea] else []) ++
      [IRCall.process ev.irb.getAddress] }

/-- Number of entries of the target routine not yet matched by a return, after the events
`evs`, starting from `d` open entries. -/
def depthAfter : Nat → List (PinEvent CONTEXT) → Nat
  | d, [] => d
  | d, PinEvent.rtnEntry :: evs => depthAfter (d + 1) evs
  | d, PinEvent.rtnExit :: evs => depthAfter (d - 1) evs
  | d, PinEvent.ins _ :: evs => depthAfter d evs

/-- Well-nested sequences: a return always matches an earlier entry. -/
def wellNested : Nat → List (PinEvent CONTEXT) → Bool
  | _, [] => true
  | d, PinEvent.rtnEntry :: evs => wellNested (d + 1) evs
  | d, PinEvent.rtnExit :: evs => decide (0 < d) && wellNested (d - 1) evs
  | d, PinEvent.ins _ :: evs => wellNested d evs

/-- Sequences without nested entries: the routine is entered only while no entry is open. -/
def noReentry : Nat → List (PinEvent CONTEXT) → Bool
  | _, [] => true
  | d, PinEvent.rtnEntry :: evs => decide (d = 0) && noReentry (d + 1) evs
  | d, PinEvent.rtnExit :: evs => noReentry (d - 1) evs
  | d, PinEvent.ins _ :: evs => noReentry d evs

/-- Direction of the most recent routine hook in `evs` (`true` for an entry, `false` for a
return), or `s` when `evs` holds no hook. -/
def lastHook : Bool → List (PinEvent CONTEXT) → Bool
  | s, [] => s
  | _, PinEvent.rtnEntry :: evs => lastHook true evs
  | _, PinEvent.rtnExit :: evs => lastHook false evs
  | s, PinEvent.ins _ :: evs => lastHook s evs

/-- The instruction event `ev`, executed right after the events `pre`, is recorded: handling
it makes the Trace one record longer. -/
def recorded (conf : PyTritonOptions) (env : Env CONTEXT Inst) (calls : List RtnCall)
    (st : State Inst) (pre : List (PinEvent CONTEXT)) (ev : InsEvent CONTEXT) : Bool :=
  decide ((runEvents conf env calls st (pre ++ [PinEvent.ins ev])).state.trace.instructions.length
    = (runEvents conf env calls st pre).state.trace.instructions.length + 1)

end Spec

/-! ## Concrete inputs -/

section Examples

/-- A `process` that records the address of the instruction and propagates the taint of
register 0 to register 1 (a register move). -/
def envMove : Env Unit ADDRINT :=
  { process := fun irb _ ap =>
      (irb.getAddress, if ap.isTainted 0 then ap.taintReg 1 else ap.untaintReg 1) }

/-- Nothing tainted. -/
def apClean : AnalysisProcessor :=
  { taintedReg := fun _ => false, taintedMem := fun _ => false }

/-- Empty Trace, nothing tainted, Trigger inactive. -/
def stIdle : State ADDRINT :=
  { ap := apClean, trace := { instructions := [] }, analysisTrigger := { active := false },
    irCalls := [] }

/-- Empty Trace, nothing tainted, Trigger active. -/
def stActive : State ADDRINT :=
  { ap := apClean, trace := { instructions := [] }, analysisTrigger := { active := true },
    irCalls := [] }

/-- Empty Trace, register 0 tainted, Trigger inactive. -/
def stIdleTainted : State ADDRINT :=
  { stIdle with ap := apClean.taintReg 0 }

/-- A configuration with no directive at all. -/
def confNone : PyTritonOptions :=
  { startAnalysisFromSymbol := none
    startAnalysisFromAddr := []
    stopAnalysisFromAddr := []
    taintRegFromAddr := fun _ => []
    untaintRegFromAddr := fun _ => []
    callbackBefore := none
    callbackAfter := none
    dumpTrace := false
    dumpStats := false }

/-- Taint register 0 at address 5; nothing else. -/
def confTaint : PyTritonOptions :=
  { confNone with taintRegFromAddr := fun a => if a = 5 then [0] else [] }

/-- Taint registers 0 and 2 and untaint registers 2 and 3 at address 5. -/
def confTaintUntaint : PyTritonOptions :=
  { confNone with
    taintRegFromAddr := fun a => if a = 5 then [0, 2] else []
    untaintRegFromAddr := fun a => if a = 5 then [2, 3] else [] }

/-- Start at address 10, stop at address 13, taint register 0 at address 10. -/
def confWindow : PyTritonOptions :=
  { confNone with
    startAnalysisFromAddr := [10]
    stopAnalysisFromAddr := [13]
    taintRegFromAddr := fun a => if a = 10 then [0] else [] }

/-- Address 7 is both a start and a stop address. -/
def confBoth : PyTritonOptions :=
  { confNone with startAnalysisFromAddr := [7], stopAnalysisFromAddr := [7] }

/-- No start address; address 1 is a stop address. -/
def confStop : PyTritonOptions :=
  { confNone with stopAnalysisFromAddr := [1] }

/-- The analysis is scoped to the routine `main`. -/
def confSymbol : PyTritonOptions :=
  { confNone with startAnalysisFromSymbol := some "main" }

/-- A pre-instruction callback that always fails; start address 2. -/
def confFailing : PyTritonOptions :=
  { confNone with startAnalysisFromAddr := [2], callbackBefore := some fun _ _ => false }

/-- An IRBuilder for the instruction at address `a`, before any `setup`. -/
def irbAt (a : ADDRINT) : IRBuilder :=
  { address := a, effectiveAddress := none }

/-- An instruction event at address `a`, without memory operand, on thread 0. -/
def insAt (a : ADDRINT) : InsEvent Unit :=
  { irb := irbAt a, ctx := (), hasEA := false, ea := 0, threadId := 0 }

end Examples

/-! ## Lemmas on the single step -/

section Lemmas

variable {CONTEXT Inst : Type}

theorem foldl_taintReg (T : List RegId) (ap : AnalysisProcessor) :
    T.foldl (fun ap r => ap.taintReg r) ap =
      { ap with taintedReg := fun r => if r ∈ T then true else ap.taintedReg r } := by
  induction T generalizing ap with
  | nil => simp
  | cons x T ih =>
    rw [List.foldl_cons, ih]
    simp only [AnalysisProcessor.taintReg, List.mem_cons]
    congr 1
    funext r
    by_cases h1 : r ∈ T <;> by_cases h2 : r = x <;> simp [h1, h2]

theorem foldl_untaintReg (U : List RegId) (ap : AnalysisProcessor) :
    U.foldl (fun ap r => ap.untaintReg r) ap =
      { ap with taintedReg := fun r => if r ∈ U then false else ap.taintedReg r } := by
  induction U generalizing ap with
  | nil => simp
  | cons x U ih =>
    rw [List.foldl_cons, ih]
    simp only [AnalysisProcessor.untaintReg, List.mem_cons]
    congr 1
    funext r
    by_cases h1 : r ∈ U <;> by_cases h2 : r = x <;> simp [h1, h2]

/-- The taint and untaint loops of `applyPyConfBefore` compute "T added, then U removed". -/
theorem foldl_directives (T U : List RegId) (ap : AnalysisProcessor) :
    U.foldl (fun ap r => ap.untaintReg r) (T.foldl (fun ap r => ap.taintReg r) ap) =
      addThenRemove T U ap := by
  rw [foldl_taintReg, foldl_untaintReg]
  rfl

theorem applyPyConfBefore_state (conf : PyTritonOptions) (irb : IRBuilder) (ctx : CONTEXT)
    (tid : THREADID) (st : State Inst) :
    (applyPyConfBefore conf irb ctx tid st).state = preState conf irb.getAddress st := by
  have hst : ∀ o : Outcome (State Inst), ∀ s, (o = Outcome.ret s ∨ o = Outcome.exit 1 s) →
      o.state = s := by
    intro o s h
    rcases h with h | h <;> simp [h, Outcome.state]
  apply hst
  unfold applyPyConfBefore preState directed gateAfter
  simp only [foldl_directives]
  cases st with
  | mk ap tr tg calls =>
    cases tg with
    | mk b =>
      by_cases h1 : irb.getAddress ∈ conf.startAnalysisFromAddr <;>
      by_cases h2 : irb.getAddress ∈ conf.stopAnalysisFromAddr <;>
      cases b <;>
      simp [h1, h2, Trigger.update, Trigger.getState] <;>
      (cases conf.callbackBefore with
        | none => simp
        | some cb => cases h : cb irb.getAddress tid <;> simp [h])

theorem applyPyConfBefore_eq (conf : PyTritonOptions) (irb : IRBuilder) (ctx : CONTEXT)
    (tid : THREADID) (st : State Inst) :
    applyPyConfBefore conf irb ctx tid st =
      if gateAfter conf st.analysisTrigger.getState irb.getAddress
          && beforeFails conf irb.getAddress tid
      then Outcome.exit 1 (preState conf irb.getAddress st)
      else Outcome.ret (preState conf irb.getAddress st) := by
  unfold applyPyConfBefore preState directed gateAfter beforeFails
  simp only [foldl_directives]
  cases st with
  | mk ap tr tg calls =>
    cases tg with
    | mk b =>
      by_cases h1 : irb.getAddress ∈ conf.startAnalysisFromAddr <;>
      by_cases h2 : irb.getAddress ∈ conf.stopAnalysisFromAddr <;>
      cases b <;>
      simp [h1, h2, Trigger.update, Trigger.getState] <;>
      (cases conf.callbackBefore with
        | none => simp
        | some cb => cases h : cb irb.getAddress tid <;> simp [h])

theorem setupIfEA_getAddress (irb : IRBuilder) (hasEA : Bool) (ea : ADDRINT) (st : State Inst) :
    (setupIfEA irb hasEA ea st).1.getAddress = irb.getAddress := by
  unfold setupIfEA
  cases hasEA <;> rfl

theorem processAndAdd_preState (conf : PyTritonOptions) (env : Env CONTEXT Inst)
    (ev : InsEvent CONTEXT) (st : State Inst)
    (hg : gateAfter conf st.analysisTrigger.getState ev.irb.getAddress = true) :
    processAndAdd env (setupIfEA ev.irb ev.hasEA ev.ea (preState conf ev.irb.getAddress st)).1
        { ctx := ev.ctx, threadId := ev.threadId }
        (setupIfEA ev.irb ev.hasEA ev.ea (preState conf ev.irb.getAddress st)).2 =
      postState conf env ev st := by
  unfold processAndAdd setupIfEA postState processed builtIrb preState
  rw [hg]
  cases ev.hasEA <;> simp [IRBuilder.setup, IRBuilder.getAddress]

theorem applyPyConfAfter_postState (conf : PyTritonOptions) (env : Env CONTEXT Inst)
    (ev : InsEvent CONTEXT) (irb : IRBuilder) (ctx : CONTEXT) (st : State Inst)
    (ha : irb.getAddress = ev.irb.getAddress) :
    applyPyConfAfter conf irb ctx ev.threadId (postState conf env ev st) =
      if afterFails conf ev.irb.getAddress ev.threadId then
        Outcome.exit 1 (postState conf env ev st)
      else Outcome.ret (postState conf env ev st) := by
  have hact : (postState conf env ev st).analysisTrigger.getState = true := rfl
  unfold applyPyConfAfter afterFails
  rw [hact, ha]
  cases conf.callbackAfter with
  | none => simp
  | some cb => cases h : cb ev.irb.getAddress ev.threadId <;> simp [h]

theorem callbackEv_eq (conf : PyTritonOptions) (env : Env CONTEXT Inst) (ev : InsEvent CONTEXT)
    (st : State Inst) :
    callbackEv conf env ev st =
      if !gateAfter conf st.analysisTrigger.getState ev.irb.getAddress then
        Outcome.ret (preState conf ev.irb.getAddress st)
      else if beforeFails conf ev.irb.getAddress ev.threadId then
        Outcome.exit 1 (preState conf ev.irb.getAddress st)
      else if afterFails conf ev.irb.getAddress ev.threadId then
        Outcome.exit 1 (postState conf env ev st)
      else Outcome.ret (postState conf env ev st) := by
  have hpg : (preState conf ev.irb.getAddress st).analysisTrigger.getState =
      gateAfter conf st.analysisTrigger.getState ev.irb.getAddress := rfl
  unfold callbackEv callback
  rw [applyPyConfBefore_eq]
  cases hg : gateAfter conf st.analysisTrigger.getState ev.irb.getAddress
  · simp only [Bool.false_and, Bool.false_eq_true, if_false, Outcome.bind, hpg, hg,
      Bool.not_false, if_true]
  · cases hb : beforeFails conf ev.irb.getAddress ev.threadId
    · simp only [Bool.and_false, Bool.false_eq_true, if_false, Outcome.bind, hpg, hg,
        Bool.not_true]
      rw [processAndAdd_preState conf env ev st hg]
      exact applyPyConfAfter_postState conf env ev _ _ st (setupIfEA_getAddress _ _ _ _)
    · simp [Outcome.bind]

theorem beforeFails_of_noFail (conf : PyTritonOptions) (h : NoFail conf) (a : ADDRINT)
    (tid : THREADID) : beforeFails conf a tid = false := by
  unfold beforeFails
  cases hcb : conf.callbackBefore with
  | none => rfl
  | some cb => simp [h.1 cb hcb a tid]

theorem afterFails_of_noFail (conf : PyTritonOptions) (h : NoFail conf) (a : ADDRINT)
    (tid : THREADID) : afterFails conf a tid = false := by
  unfold afterFails
  cases hcb : conf.callbackAfter with
  | none => rfl
  | some cb => simp [h.2 cb hcb a tid]

/-- With no failing callback, an event whose gate is inactive returns the pre-state. -/
theorem callbackEv_inactive (conf : PyTritonOptions) (env : Env CONTEXT Inst)
    (ev : InsEvent CONTEXT) (st : State Inst)
    (hg : gateAfter conf st.analysisTrigger.getState ev.irb.getAddress = false) :
    callbackEv conf env ev st = Outcome.ret (preState conf ev.irb.getAddress st) := by
  rw [callbackEv_eq, hg]
  rfl

/-- With no failing callback, an event whose gate is active returns the post-state. -/
theorem callbackEv_active (conf : PyTritonOptions) (env : Env CONTEXT Inst)
    (ev : InsEvent CONTEXT) (st : State Inst) (hnf : NoFail conf)
    (hg : gateAfter conf st.analysisTrigger.getState ev.irb.getAddress = true) :
    callbackEv conf env ev st = Outcome.ret (postState conf env ev st) := by
  rw [callbackEv_eq, hg, beforeFails_of_noFail conf hnf, afterFails_of_noFail conf hnf]
  rfl

/-! ## Lemmas on runs -/

theorem runCallbacks_append (conf : PyTritonOptions) (env : Env CONTEXT Inst)
    (st : State Inst) (xs ys : List (InsEvent CONTEXT)) :
    runCallbacks conf env st (xs ++ ys) =
      (runCallbacks conf env st xs).bind fun s => runCallbacks conf env s ys := by
  induction xs generalizing st with
  | nil => rfl
  | cons x xs ih =>
    simp only [List.cons_append, runCallbacks]
    cases callbackEv conf env x st with
    | ret s => simpa [Outcome.bind] using ih s
    | exit c s => rfl

/-- With no failing callback a run returns, and its final state is the one described by
`taintAfter`, `expectedRecords` and `triggerAfter`. -/
theorem runCallbacks_noFail (conf : PyTritonOptions) (env : Env CONTEXT Inst)
    (hnf : NoFail conf) (evs : List (InsEvent CONTEXT)) (st : State Inst) :
    ∃ final, runCallbacks conf env st evs = Outcome.ret final ∧
      final.ap = taintAfter conf env st.analysisTrigger.getState st.ap evs ∧
      final.trace.instructions = st.trace.instructions ++
        expectedRecords conf env st.analysisTrigger.getState st.ap evs ∧
      final.analysisTrigger.getState = triggerAfter conf st.analysisTrigger.getState evs := by
  induction evs generalizing st with
  | nil => exact ⟨st, rfl, rfl, by simp [expectedRecords], rfl⟩
  | cons ev evs ih =>
    cases hg : gateAfter conf st.analysisTrigger.getState ev.irb.getAddress
    · obtain ⟨final, h1, h2, h3, h4⟩ := ih (preState conf ev.irb.getAddress st)
      have hpg : (preState conf ev.irb.getAddress st).analysisTrigger.getState = false := hg
      refine ⟨final, ?_, ?_, ?_, ?_⟩
      · simp only [runCallbacks, callbackEv_inactive conf env ev st hg, Outcome.bind, h1]
      · rw [h2, hpg]
        simp [taintAfter, hg, preState]
      · rw [h3, hpg]
        simp [expectedRecords, hg, preState]
      · rw [h4, hpg]
        simp [triggerAfter, hg]
    · obtain ⟨final, h1, h2, h3, h4⟩ := ih (postState conf env ev st)
      have hpg : (postState conf env ev st).analysisTrigger.getState = true := rfl
      refine ⟨final, ?_, ?_, ?_, ?_⟩
      · simp only [runCallbacks, callbackEv_active conf env ev st hnf hg, Outcome.bind, h1]
      · rw [h2, hpg]
        simp [taintAfter, hg, postState]
      · rw [h3, hpg]
        simp [expectedRecords, hg, postState, Trace.addInstruction]
      · rw [h4, hpg]
        simp [triggerAfter, hg]

theorem expectedRecords_length (conf : PyTritonOptions) (env : Env CONTEXT Inst)
    (evs : List (InsEvent CONTEXT)) (s : Bool) (ap : AnalysisProcessor) :
    (expectedRecords conf env s ap evs).length = (gates conf s evs).count true := by
  induction evs generalizing s ap with
  | nil => rfl
  | cons ev evs ih =>
    cases hg : gateAfter conf s ev.irb.getAddress <;>
      simp [expectedRecords, gates, hg, ih]

theorem gates_length (conf : PyTritonOptions) (evs : List (InsEvent CONTEXT)) (s : Bool) :
    (gates conf s evs).length = evs.length := by
  induction evs generalizing s with
  | nil => rfl
  | cons ev evs ih => simp [gates, ih]

/-- When the Trigger is active and no event lies at a stop address, every event is
processed and the Trigger stays active. -/
theorem expectedRecords_allActive (conf : PyTritonOptions) (env : Env CONTEXT Inst)
    (evs : List (InsEvent CONTEXT)) (ap : AnalysisProcessor)
    (hstop : ∀ ev ∈ evs, ev.irb.getAddress ∉ conf.stopAnalysisFromAddr) :
    expectedRecords conf env true ap evs = recordAll conf env ap evs ∧
      triggerAfter conf true evs = true := by
  induction evs generalizing ap with
  | nil => exact ⟨rfl, rfl⟩
  | cons ev evs ih =>
    have h0 : ev.irb.getAddress ∉ conf.stopAnalysisFromAddr := hstop ev (List.mem_cons_self _ _)
    have hg : gateAfter conf true ev.irb.getAddress = true := by
      unfold gateAfter
      simp [h0]
    have ih2 := ih (processed conf env ev ap).2 (fun e he => hstop e (List.mem_cons_of_mem _ he))
    exact ⟨by simp [expectedRecords, recordAll, hg, ih2.1], by simp [triggerAfter, hg, ih2.2]⟩

theorem recordAll_length (conf : PyTritonOptions) (env : Env CONTEXT Inst)
    (evs : List (InsEvent CONTEXT)) (ap : AnalysisProcessor) :
    (recordAll conf env ap evs).length = evs.length := by
  induction evs generalizing ap with
  | nil => rfl
  | cons ev evs ih => simp [recordAll, ih]

theorem noFail_of_none (conf : PyTritonOptions) (h1 : conf.callbackBefore = none)
    (h2 : conf.callbackAfter = none) : NoFail conf := by
  constructor
  · intro cb h
    rw [h1] at h
    cases h
  · intro cb h
    rw [h2] at h
    cases h

theorem triggerAfter_append (conf : PyTritonOptions) (xs ys : List (InsEvent CONTEXT))
    (s : Bool) :
    triggerAfter conf s (xs ++ ys) = triggerAfter conf (triggerAfter conf s xs) ys := by
  induction xs generalizing s with
  | nil => rfl
  | cons x xs ih => simp [triggerAfter, ih]

theorem expectedRecords_append (conf : PyTritonOptions) (env : Env CONTEXT Inst)
    (xs ys : List (InsEvent CONTEXT)) (s : Bool) (ap : AnalysisProcessor) :
    expectedRecords conf env s ap (xs ++ ys) =
      expectedRecords conf env s ap xs ++
        expectedRecords conf env (triggerAfter conf s xs) (taintAfter conf env s ap xs) ys := by
  induction xs generalizing s ap with
  | nil => rfl
  | cons x xs ih =>
    cases hg : gateAfter conf s x.irb.getAddress <;>
      simp [expectedRecords, triggerAfter, taintAfter, hg, ih]

/-- Events whose gates are all inactive are bypassed, whatever the callbacks do. -/
theorem runCallbacks_bypass (conf : PyTritonOptions) (env : Env CONTEXT Inst)
    (evs : List (InsEvent CONTEXT)) (st : State Inst)
    (hg : ∀ g ∈ gates conf st.analysisTrigger.getState evs, g = false) :
    ∃ s0, runCallbacks conf env st evs = Outcome.ret s0 ∧ s0.trace = st.trace ∧
      s0.irCalls = st.irCalls ∧
      s0.analysisTrigger.getState = triggerAfter conf st.analysisTrigger.getState evs := by
  induction evs generalizing st with
  | nil => exact ⟨st, rfl, rfl, rfl, rfl⟩
  | cons ev evs ih =>
    have h0 : gateAfter conf st.analysisTrigger.getState ev.irb.getAddress = false :=
      hg _ (by simp [gates])
    have hpg : (preState conf ev.irb.getAddress st).analysisTrigger.getState =
        gateAfter conf st.analysisTrigger.getState ev.irb.getAddress := rfl
    obtain ⟨s0, h1, h2, h3, h4⟩ := ih (preState conf ev.irb.getAddress st) (by
      intro g hmem
      rw [hpg] at hmem
      exact hg g (by simp [gates, hmem]))
    refine ⟨s0, ?_, ?_, ?_, ?_⟩
    · simp only [runCallbacks, callbackEv_inactive conf env ev st h0, Outcome.bind, h1]
    · rw [h2]; rfl
    · rw [h3]; rfl
    · rw [h4, hpg]; rfl

/-- With a pre-instruction callback that always fails, a run never processes anything, and
it terminates exactly when some gate is active. -/
theorem runCallbacks_failing (conf : PyTritonOptions) (env : Env CONTEXT Inst)
    (hfail : ∀ a t, beforeFails conf a t = true)
    (evs : List (InsEvent CONTEXT)) (st : State Inst) :
    (runCallbacks conf env st evs).state.trace = st.trace ∧
      (runCallbacks conf env st evs).state.irCalls = st.irCalls ∧
      ((runCallbacks conf env st evs).exited = true ↔
        true ∈ gates conf st.analysisTrigger.getState evs) := by
  induction evs generalizing st with
  | nil => simp [runCallbacks, Outcome.state, Outcome.exited, gates]
  | cons ev evs ih =>
    have hpg : (preState conf ev.irb.getAddress st).analysisTrigger.getState =
        gateAfter conf st.analysisTrigger.getState ev.irb.getAddress := rfl
    cases h0 : gateAfter conf st.analysisTrigger.getState ev.irb.getAddress
    · obtain ⟨h1, h2, h3⟩ := ih (preState conf ev.irb.getAddress st)
      rw [hpg, h0] at h3
      simp only [runCallbacks, callbackEv_inactive conf env ev st h0, Outcome.bind, gates, h0]
      refine ⟨?_, ?_, ?_⟩
      · rw [h1]; rfl
      · rw [h2]; rfl
      · rw [h3]; simp
    · have hcb : callbackEv conf env ev st =
          Outcome.exit 1 (preState conf ev.irb.getAddress st) := by
        rw [callbackEv_eq, h0, hfail]
        rfl
      simp only [runCallbacks, hcb, Outcome.bind, Outcome.state, Outcome.exited, gates, h0]
      exact ⟨rfl, rfl, by simp⟩

theorem runEvents_append (conf : PyTritonOptions) (env : Env CONTEXT Inst)
    (calls : List RtnCall) (st : State Inst) (xs ys : List (PinEvent CONTEXT)) :
    runEvents conf env calls st (xs ++ ys) =
      (runEvents conf env calls st xs).bind fun s => runEvents conf env calls s ys := by
  induction xs generalizing st with
  | nil => rfl
  | cons x xs ih =>
    simp only [List.cons_append, runEvents]
    cases handleEvent conf env calls x st with
    | ret s => simpa [Outcome.bind] using ih s
    | exit c s => rfl

/-- The calls `IMG_Instrumentation` inserts when the start symbol resolves. -/
theorem IMG_Instrumentation_resolved (conf : PyTritonOptions) (img : IMG) (name : String)
    (hsym : conf.startAnalysisFromSymbol = some name) (himg : name ∈ img) :
    IMG_Instrumentation conf img =
      [{ ipoint := IPOINT.BEFORE, flag := true }, { ipoint := IPOINT.AFTER, flag := false }] := by
  unfold IMG_Instrumentation
  rw [hsym]
  simp [himg]

/-- With the routine hooks installed, no start or stop address and no failing callback, a
run over hooks and instructions returns, its Trigger following the most recent hook; a run
that starts inactive and never enters the routine leaves the Trace alone. -/
theorem runEvents_hooks (conf : PyTritonOptions) (env : Env CONTEXT Inst)
    (hstart : conf.startAnalysisFromAddr = []) (hstop : conf.stopAnalysisFromAddr = [])
    (hnf : NoFail conf) (evs : List (PinEvent CONTEXT)) (st : State Inst) :
    ∃ final, runEvents conf env
        [{ ipoint := IPOINT.BEFORE, flag := true }, { ipoint := IPOINT.AFTER, flag := false }]
        st evs = Outcome.ret final ∧
      final.analysisTrigger.getState = lastHook st.analysisTrigger.getState evs ∧
      (PinEvent.rtnEntry ∉ evs → st.analysisTrigger.getState = false →
        final.trace = st.trace) := by
  have hgate : ∀ (s : Bool) (a : ADDRINT), gateAfter conf s a = s := by
    intro s a
    unfold gateAfter
    simp [hstart, hstop]
  induction evs generalizing st with
  | nil => exact ⟨st, rfl, rfl, fun _ _ => rfl⟩
  | cons e evs ih =>
    cases e with
    | ins ev =>
      cases hs : st.analysisTrigger.getState
      · have h0 : gateAfter conf st.analysisTrigger.getState ev.irb.getAddress = false := by
          rw [hgate, hs]
        obtain ⟨final, h1, h2, h3⟩ := ih (preState conf ev.irb.getAddress st)
        have hpg : (preState conf ev.irb.getAddress st).analysisTrigger.getState = false := h0
        refine ⟨final, ?_, ?_, ?_⟩
        · simp only [runEvents, handleEvent, callbackEv_inactive conf env ev st h0,
            Outcome.bind, h1]
        · rw [h2, hpg]; rfl
        · intro hne _
          rw [h3 (fun hm => hne (List.mem_cons_of_mem _ hm)) hpg]
          rfl
      · have h0 : gateAfter conf st.analysisTrigger.getState ev.irb.getAddress = true := by
          rw [hgate, hs]
        obtain ⟨final, h1, h2, _⟩ := ih (postState conf env ev st)
        have hpg : (postState conf env ev st).analysisTrigger.getState = true := rfl
        refine ⟨final, ?_, ?_, ?_⟩
        · simp only [runEvents, handleEvent, callbackEv_active conf env ev st hnf h0,
            Outcome.bind, h1]
        · rw [h2, hpg]; rfl
        · intro _ hf
          cases hf
    | rtnEntry =>
      obtain ⟨final, h1, h2, _⟩ := ih (toggleWrapper true st)
      refine ⟨final, ?_, ?_, ?_⟩
      · simpa [runEvents, handleEvent, fireRtn, Outcome.bind] using h1
      · rw [h2]; rfl
      · intro hne
        exact absurd (List.mem_cons_self _ _) hne
    | rtnExit =>
      obtain ⟨final, h1, h2, h3⟩ := ih (toggleWrapper false st)
      refine ⟨final, ?_, ?_, ?_⟩
      · simpa [runEvents, handleEvent, fireRtn, Outcome.bind] using h1
      · rw [h2]; rfl
      · intro hne _
        rw [h3 (fun hm => hne (List.mem_cons_of_mem _ hm)) rfl]
        rfl

/-- Without nested entries, the most recent hook is an entry exactly when an entry is
open. -/
theorem lastHook_iff_depth (evs : List (PinEvent CONTEXT)) (d : Nat) (s : Bool)
    (hd : d ≤ 1) (hs : s = true ↔ 0 < d) (hnr : noReentry d evs = true) :
    lastHook s evs = true ↔ 0 < depthAfter d evs := by
  induction evs generalizing d s with
  | nil => simpa [lastHook, depthAfter] using hs
  | cons e evs ih =>
    cases e with
    | ins ev =>
      simp only [noReentry] at hnr
      simpa [lastHook, depthAfter] using ih d s hd hs hnr
    | rtnEntry =>
      simp only [noReentry, Bool.and_eq_true, decide_eq_true_eq] at hnr
      simp only [lastHook, depthAfter]
      exact ih (d + 1) true (by omega) (by simp) hnr.2
    | rtnExit =>
      simp only [noReentry] at hnr
      simp only [lastHook, depthAfter]
      exact ih (d - 1) false (by omega) (by constructor <;> intro h <;> [cases h; omega]) hnr

end Lemmas

/-! ## The properties of the specification -/

section Claims

variable {CONTEXT Inst : Type}

/-- C1. Bypass, Trace part: when `applyPyConfBefore` has returned and the Trigger is inactive
at the gate of `callback`, the callback returns that very state, the Trace is the one before
the event (so its length did not increase), and the history of IRBuilder calls is unchanged:
neither `setup` nor `process` was called. -/
theorem bypass_trace_unchanged (conf : PyTritonOptions) (env : Env CONTEXT Inst)
    (irb : IRBuilder) (ctx : CONTEXT) (hasEA : Bool) (ea : ADDRINT) (tid : THREADID)
    (st st1 : State Inst)
    (hpre : applyPyConfBefore conf irb ctx tid st = Outcome.ret st1)
    (hgate : st1.analysisTrigger.getState = false) :
    callback conf env irb ctx hasEA ea tid st = Outcome.ret st1 ∧
      st1.trace = st.trace ∧
      st1.trace.instructions.length ≤ st.trace.instructions.length ∧
      st1.irCalls = st.irCalls := by
  have hs := applyPyConfBefore_state conf irb ctx tid st
  rw [hpre] at hs
  have hs1 : st1 = preState conf irb.getAddress st := hs
  refine ⟨?_, ?_, ?_, ?_⟩
  · unfold callback
    rw [hpre]
    simp [Outcome.bind, hgate]
  · rw [hs1]; rfl
  · rw [hs1]; exact Nat.le_refl _
  · rw [hs1]; rfl

theorem bypass_trace_unchanged_witness :
    applyPyConfBefore confTaint (irbAt 5) () 0 stIdle = Outcome.ret stIdleTainted ∧
      stIdleTainted.analysisTrigger.getState = false ∧
      callback confTaint envMove (irbAt 5) () true 64 0 stIdle = Outcome.ret stIdleTainted ∧
      stIdleTainted.trace = stIdle.trace ∧
      stIdleTainted.trace.instructions.length ≤ stIdle.trace.instructions.length ∧
      stIdleTainted.irCalls = stIdle.irCalls :=
  ⟨rfl, rfl, bypass_trace_unchanged confTaint envMove (irbAt 5) () true 64 0 stIdle
    stIdleTainted rfl rfl⟩

/-- C2, as stated, fails: with register 0 in the taint list of address 5 and the Trigger
inactive at the gate, the event at address 5 taints register 0, so the taint state after
the event differs from the one before it. -/
theorem bypass_taint_counterexample :
    applyPyConfBefore confTaint (irbAt 5) () 0 stIdle = Outcome.ret stIdleTainted ∧
      stIdleTainted.analysisTrigger.getState = false ∧
      callback confTaint envMove (irbAt 5) () false 0 0 stIdle = Outcome.ret stIdleTainted ∧
      stIdle.ap.isTainted 0 = false ∧
      stIdleTainted.ap.isTainted 0 = true ∧
      stIdleTainted.ap ≠ stIdle.ap := by
  refine ⟨rfl, rfl, rfl, rfl, rfl, ?_⟩
  intro h
  have h0 : stIdleTainted.ap.isTainted 0 = stIdle.ap.isTainted 0 := by rw [h]
  exact absurd h0 (by decide)

/-- C2, amended. When `applyPyConfBefore` has returned and the Trigger is inactive at the gate,
the callback returns that state, whose taint state is the one before the event with the taint
list of the address added and then its untaint list removed (`process` contributes nothing):
memory taint is unchanged, a register in neither list keeps its flag, and with both lists
empty the taint state equals the one before the event. -/
theorem bypass_taint_directives_only (conf : PyTritonOptions) (env : Env CONTEXT Inst)
    (irb : IRBuilder) (ctx : CONTEXT) (hasEA : Bool) (ea : ADDRINT) (tid : THREADID)
    (st st1 : State Inst)
    (hpre : applyPyConfBefore conf irb ctx tid st = Outcome.ret st1)
    (hgate : st1.analysisTrigger.getState = false) :
    callback conf env irb ctx hasEA ea tid st = Outcome.ret st1 ∧
      st1.ap = addThenRemove (conf.taintRegFromAddr irb.getAddress)
        (conf.untaintRegFromAddr irb.getAddress) st.ap ∧
      st1.ap.taintedMem = st.ap.taintedMem ∧
      (∀ r, r ∉ conf.taintRegFromAddr irb.getAddress →
        r ∉ conf.untaintRegFromAddr irb.getAddress →
        st1.ap.isTainted r = st.ap.isTainted r) ∧
      (conf.taintRegFromAddr irb.getAddress = [] →
        conf.untaintRegFromAddr irb.getAddress = [] → st1.ap = st.ap) := by
  have hs := applyPyConfBefore_state conf irb ctx tid st
  rw [hpre] at hs
  have hs1 : st1 = preState conf irb.getAddress st := hs
  refine ⟨?_, ?_, ?_, ?_, ?_⟩
  · unfold callback
    rw [hpre]
    simp [Outcome.bind, hgate]
  · rw [hs1]; rfl
  · rw [hs1]; rfl
  · intro r hT hU
    rw [hs1]
    simp [preState, directed, addThenRemove, AnalysisProcessor.isTainted, hT, hU]
  · intro hT hU
    rw [hs1]
    simp [preState, directed, addThenRemove, hT, hU]

theorem bypass_taint_directives_only_witness :
    applyPyConfBefore confTaint (irbAt 5) () 0 stIdle = Outcome.ret stIdleTainted ∧
      stIdleTainted.analysisTrigger.getState = false ∧
      callback confTaint envMove (irbAt 5) () false 0 0 stIdle = Outcome.ret stIdleTainted ∧
      stIdleTainted.ap = addThenRemove [0] [] stIdle.ap ∧
      stIdleTainted.ap.isTainted 1 = stIdle.ap.isTainted 1 :=
  have h := bypass_taint_directives_only confTaint envMove (irbAt 5) () false 0 0 stIdle
    stIdleTainted rfl rfl
  ⟨rfl, rfl, h.1, h.2.1, h.2.2.2.1 1 (by decide) (by decide)⟩

/-- C8. Per-address taint directives: whatever the outcome of `applyPyConfBefore` at address
`a`, with `T` and `U` the taint and untaint lists of `a`, the taint state it leaves is the
prior one with `T` added and then `U` removed: a register of `T` not in `U` is tainted, a
register of `U` is untainted (also when it is in `T`), a register in neither list keeps its
flag, memory taint is untouched; and when `applyPyConfBefore` returns with the Trigger active,
that taint state is the one `process` receives, the record `process` computes from it being
the one appended to the Trace. -/
theorem taint_directives_applied (conf : PyTritonOptions) (irb : IRBuilder) (ctx : CONTEXT)
    (tid : THREADID) (st : State Inst) :
    (applyPyConfBefore conf irb ctx tid st).state.ap =
        addThenRemove (conf.taintRegFromAddr irb.getAddress)
          (conf.untaintRegFromAddr irb.getAddress) st.ap ∧
      (∀ r, r ∈ conf.taintRegFromAddr irb.getAddress →
        r ∉ conf.untaintRegFromAddr irb.getAddress →
        (applyPyConfBefore conf irb ctx tid st).state.ap.isTainted r = true) ∧
      (∀ r, r ∈ conf.untaintRegFromAddr irb.getAddress →
        (applyPyConfBefore conf irb ctx tid st).state.ap.isTainted r = false) ∧
      (∀ r, r ∉ conf.taintRegFromAddr irb.getAddress →
        r ∉ conf.untaintRegFromAddr irb.getAddress →
        (applyPyConfBefore conf irb ctx tid st).state.ap.isTainted r = st.ap.isTainted r) ∧
      (applyPyConfBefore conf irb ctx tid st).state.ap.taintedMem = st.ap.taintedMem ∧
      (∀ (env : Env CONTEXT Inst) (hasEA : Bool) (ea : ADDRINT) (st1 : State Inst),
        applyPyConfBefore conf irb ctx tid st = Outcome.ret st1 →
        st1.analysisTrigger.getState = true →
        (callback conf env irb ctx hasEA ea tid st).state.trace.instructions =
          st.trace.instructions ++
            [(env.process (if hasEA then irb.setup ea else irb)
              { ctx := ctx, threadId := tid }
              (addThenRemove (conf.taintRegFromAddr irb.getAddress)
                (conf.untaintRegFromAddr irb.getAddress) st.ap)).1]) := by
  have hs := applyPyConfBefore_state conf irb ctx tid st
  refine ⟨?_, ?_, ?_, ?_, ?_, ?_⟩
  · rw [hs]; rfl
  · intro r hT hU
    rw [hs]
    simp [preState, directed, addThenRemove, AnalysisProcessor.isTainted, hT, hU]
  · intro r hU
    rw [hs]
    simp [preState, directed, addThenRemove, AnalysisProcessor.isTainted, hU]
  · intro r hT hU
    rw [hs]
    simp [preState, directed, addThenRemove, AnalysisProcessor.isTainted, hT, hU]
  · rw [hs]; rfl
  · intro env hasEA ea st1 hpre hact
    rw [hpre] at hs
    have hs1 : st1 = preState conf irb.getAddress st := hs
    have hstate : ∀ o : Outcome (State Inst), ∀ s,
        (o = Outcome.ret s ∨ o = Outcome.exit 1 s) → o.state = s := by
      intro o s h
      rcases h with h | h <;> simp [h, Outcome.state]
    have hcb : (callback conf env irb ctx hasEA ea tid st).state =
        processAndAdd env (setupIfEA irb hasEA ea st1).1 { ctx := ctx, threadId := tid }
          (setupIfEA irb hasEA ea st1).2 := by
      apply hstate
      unfold callback
      rw [hpre]
      simp only [Outcome.bind, hact, Bool.not_true, Bool.false_eq_true, if_false]
      unfold applyPyConfAfter
      split
      · cases conf.callbackAfter with
        | none => simp
        | some cb =>
          cases h : cb (setupIfEA irb hasEA ea st1).1.getAddress tid <;> simp [h]
      · simp
    rw [hcb, hs1]
    unfold processAndAdd setupIfEA preState directed
    cases hasEA <;> simp [Trace.addInstruction]

theorem taint_directives_applied_witness :
    (applyPyConfBefore confTaintUntaint (irbAt 5) () 0 stActive).state.ap.isTainted 0 = true ∧
      (applyPyConfBefore confTaintUntaint (irbAt 5) () 0 stActive).state.ap.isTainted 2 = false ∧
      (applyPyConfBefore confTaintUntaint (irbAt 5) () 0 stActive).state.ap.isTainted 3 = false ∧
      (applyPyConfBefore confTaintUntaint (irbAt 5) () 0 stActive).state.ap.isTainted 1 =
        stActive.ap.isTainted 1 ∧
      (callback confTaintUntaint envMove (irbAt 5) () false 0 0 stActive).state.trace.instructions
        = [5] :=
  have h := taint_directives_applied confTaintUntaint (irbAt 5) () 0 stActive
  ⟨h.2.1 0 (by decide) (by decide), h.2.2.1 2 (by decide), h.2.2.1 3 (by decide),
    h.2.2.2.1 1 (by decide) (by decide),
    h.2.2.2.2.2 envMove false 0
      (applyPyConfBefore confTaintUntaint (irbAt 5) () 0 stActive).state rfl rfl⟩

/-- C9. Trigger idempotence: calling `toggleWrapper b` twice leaves the same state as calling
it once; after either, `getState` returns `b` whatever the previous state was; the taint
state, the Trace and the call history are unchanged. -/
theorem toggleWrapper_idempotent (b : Bool) (st : State Inst) :
    toggleWrapper b (toggleWrapper b st) = toggleWrapper b st ∧
      (toggleWrapper b st).analysisTrigger.getState = b ∧
      (toggleWrapper b (toggleWrapper b st)).analysisTrigger.getState = b ∧
      (toggleWrapper b st).ap = st.ap ∧
      (toggleWrapper b st).trace = st.trace ∧
      (toggleWrapper b st).irCalls = st.irCalls :=
  ⟨rfl, rfl, rfl, rfl, rfl, rfl⟩

/-- C10. Pre-directive Trigger transition: whatever the outcome of `applyPyConfBefore` at
address `a`, the Trigger it leaves is inactive if `a` is a stop address, otherwise active if
`a` is a start address, otherwise as before; at an address that is both a start and a stop
address the Trigger is left inactive and `callback` returns without calling `setup` or
`process` and without appending to the Trace. -/
theorem pre_directive_trigger (conf : PyTritonOptions) (irb : IRBuilder) (ctx : CONTEXT)
    (tid : THREADID) (st : State Inst) :
    (applyPyConfBefore conf irb ctx tid st).state.analysisTrigger.getState =
        (if irb.getAddress ∈ conf.stopAnalysisFromAddr then false
         else if irb.getAddress ∈ conf.startAnalysisFromAddr then true
         else st.analysisTrigger.getState) ∧
      (irb.getAddress ∈ conf.startAnalysisFromAddr →
        irb.getAddress ∈ conf.stopAnalysisFromAddr →
        (applyPyConfBefore conf irb ctx tid st).state.analysisTrigger.getState = false ∧
        ∀ (env : Env CONTEXT Inst) (hasEA : Bool) (ea : ADDRINT),
          ∃ st1, callback conf env irb ctx hasEA ea tid st = Outcome.ret st1 ∧
            st1.analysisTrigger.getState = false ∧
            st1.trace = st.trace ∧ st1.irCalls = st.irCalls) := by
  have hs := applyPyConfBefore_state conf irb ctx tid st
  refine ⟨?_, ?_⟩
  · rw [hs]; rfl
  · intro _ hstop
    have hg : gateAfter conf st.analysisTrigger.getState irb.getAddress = false := by
      unfold gateAfter
      simp [hstop]
    refine ⟨?_, ?_⟩
    · rw [hs]; exact hg
    · intro env hasEA ea
      refine ⟨preState conf irb.getAddress st, ?_, hg, rfl, rfl⟩
      exact callbackEv_inactive conf env
        { irb := irb, ctx := ctx, hasEA := hasEA, ea := ea, threadId := tid } st hg

theorem pre_directive_trigger_witness :
    (applyPyConfBefore confBoth (irbAt 7) () 0 stActive).state.analysisTrigger.getState = false ∧
      ∃ st1, callback confBoth envMove (irbAt 7) () false 0 0 stActive = Outcome.ret st1 ∧
        st1.analysisTrigger.getState = false ∧
        st1.trace = stActive.trace ∧ st1.irCalls = stActive.irCalls :=
  have h := (pre_directive_trigger confBoth (irbAt 7) () 0 stActive).2
    (by decide) (by decide)
  ⟨h.1, h.2 envMove false 0⟩

/-- C3. Trace ordering: with no failing callback, a run over any sequence of instruction
events returns, and the final Trace is the initial Trace followed by the expected records,
one for each event whose gate is active, in the order of the events; their number is the
number of active gates, there being one gate per event; the initial Trace is an initial
segment of the final one; and a single event appends one record when its gate is active and
none otherwise. -/
theorem trace_ordering (conf : PyTritonOptions) (env : Env CONTEXT Inst) (hnf : NoFail conf)
    (st : State Inst) (evs : List (InsEvent CONTEXT)) :
    ∃ final, runCallbacks conf env st evs = Outcome.ret final ∧
      final.trace.instructions = st.trace.instructions ++
        expectedRecords conf env st.analysisTrigger.getState st.ap evs ∧
      (expectedRecords conf env st.analysisTrigger.getState st.ap evs).length =
        (gates conf st.analysisTrigger.getState evs).count true ∧
      (gates conf st.analysisTrigger.getState evs).length = evs.length ∧
      st.trace.instructions <+: final.trace.instructions ∧
      (∀ (ev : InsEvent CONTEXT) (s0 : State Inst),
        (callbackEv conf env ev s0).state.trace.instructions =
          s0.trace.instructions ++
            (if gateAfter conf s0.analysisTrigger.getState ev.irb.getAddress
             then [(processed conf env ev s0.ap).1] else [])) := by
  obtain ⟨final, h1, _, h3, _⟩ := runCallbacks_noFail conf env hnf evs st
  refine ⟨final, h1, h3, expectedRecords_length conf env evs _ _, gates_length conf evs _,
    ⟨_, h3.symm⟩, ?_⟩
  intro ev s0
  cases hg : gateAfter conf s0.analysisTrigger.getState ev.irb.getAddress
  · rw [callbackEv_inactive conf env ev s0 hg]
    simp [Outcome.state, preState]
  · rw [callbackEv_active conf env ev s0 hnf hg]
    simp [Outcome.state, postState, Trace.addInstruction]

theorem trace_ordering_witness :
    NoFail confWindow ∧
      ∃ final, runCallbacks confWindow envMove stIdle
          [insAt 9, insAt 10, insAt 11, insAt 13, insAt 14, insAt 10] = Outcome.ret final ∧
        final.trace.instructions = [10, 11, 10] :=
  ⟨noFail_of_none confWindow rfl rfl,
    (trace_ordering confWindow envMove (noFail_of_none confWindow rfl rfl) stIdle
      [insAt 9, insAt 10, insAt 11, insAt 13, insAt 14, insAt 10]).imp
      fun _ h => ⟨h.1, h.2.1⟩⟩

/-- C4. Start/stop window: with start set `{A}`, stop set `{B}`, `A < B`, no failing
callback and the Trace empty, a run over events at the addresses `A, A+1, ..., B-1` (the
list `body`) followed by an event at `B` returns, from any initial Trigger state and so from
an inactive one; the Trace then holds exactly the records of the events of `body`, in order,
`B - A` of them; the event at `B` is not recorded and the Trigger is inactive afterwards. -/
theorem start_stop_window (conf : PyTritonOptions) (env : Env CONTEXT Inst) (A B : Nat)
    (hAB : A < B) (hstart : conf.startAnalysisFromAddr = [A])
    (hstop : conf.stopAnalysisFromAddr = [B]) (hnf : NoFail conf)
    (st : State Inst) (hempty : st.trace.instructions = [])
    (body : List (InsEvent CONTEXT)) (last : InsEvent CONTEXT)
    (hbody : body.map (fun ev => ev.irb.getAddress) = List.range' A (B - A))
    (hlast : last.irb.getAddress = B) :
    (body ++ [last]).map (fun ev => ev.irb.getAddress) = List.range' A (B - A + 1) ∧
      ∃ final, runCallbacks conf env st (body ++ [last]) = Outcome.ret final ∧
        final.trace.instructions = recordAll conf env st.ap body ∧
        final.trace.instructions.length = B - A ∧
        final.analysisTrigger.getState = false := by
  have hlen : body.length = B - A := by
    have := congrArg List.length hbody
    simpa using this
  constructor
  · rw [List.map_append, hbody, List.range'_concat]
    have hB : A + 1 * (B - A) = B := by omega
    rw [hB]
    simp [hlast]
  · obtain ⟨final, h1, _, h3, h4⟩ := runCallbacks_noFail conf env hnf (body ++ [last]) st
    have hglast : ∀ s, gateAfter conf s last.irb.getAddress = false := by
      intro s
      unfold gateAfter
      simp [hstop, hlast]
    cases body with
    | nil =>
      simp at hlen
      omega
    | cons e0 rest =>
      have hmap : e0.irb.getAddress :: rest.map (fun ev => ev.irb.getAddress) =
          List.range' A (B - A) := by simpa using hbody
      have hBA : B - A = (B - A - 1) + 1 := by omega
      rw [hBA, List.range'_succ] at hmap
      have he0 : e0.irb.getAddress = A := (List.cons.inj hmap).1
      have hrest : rest.map (fun ev => ev.irb.getAddress) = List.range' (A + 1) (B - A - 1) :=
        (List.cons.inj hmap).2
      have hg0 : gateAfter conf st.analysisTrigger.getState e0.irb.getAddress = true := by
        unfold gateAfter
        have hne : A ≠ B := by omega
        simp [hstop, hstart, he0, hne]
      have hnostop : ∀ ev ∈ rest, ev.irb.getAddress ∉ conf.stopAnalysisFromAddr := by
        intro ev hev
        have hin : ev.irb.getAddress ∈ rest.map (fun ev => ev.irb.getAddress) :=
          List.mem_map_of_mem _ hev
        rw [hrest, List.mem_range'_1] at hin
        have hlt : ev.irb.getAddress < B := by
          have h2 := hin.2
          have h3 : A + 1 + (B - A - 1) = B := by omega
          rw [h3] at h2
          exact h2
        rw [hstop]
        simp only [List.mem_singleton]
        intro heq
        rw [heq] at hlt
        exact Nat.lt_irrefl _ hlt
      obtain ⟨hall, htrig⟩ :=
        expectedRecords_allActive conf env rest (processed conf env e0 st.ap).2 hnostop
      have hrec : expectedRecords conf env st.analysisTrigger.getState st.ap
          (e0 :: rest ++ [last]) = recordAll conf env st.ap (e0 :: rest) := by
        rw [List.cons_append]
        rw [expectedRecords, if_pos hg0, expectedRecords_append, hall, recordAll]
        simp [expectedRecords, hglast]
      have htrace : final.trace.instructions = recordAll conf env st.ap (e0 :: rest) := by
        rw [h3, hempty, hrec]
        rfl
      refine ⟨final, h1, htrace, ?_, ?_⟩
      · rw [htrace, recordAll_length]
        exact hlen
      · rw [h4, triggerAfter_append]
        simp [triggerAfter, hglast]

theorem start_stop_window_witness :
    (10 : ADDRINT) < 13 ∧ NoFail confWindow ∧ stIdle.analysisTrigger.getState = false ∧
      ([insAt 10, insAt 11, insAt 12] ++ [insAt 13]).map (fun ev => ev.irb.getAddress) =
        List.range' 10 (13 - 10 + 1) ∧
      ∃ final, runCallbacks confWindow envMove stIdle
          ([insAt 10, insAt 11, insAt 12] ++ [insAt 13]) = Outcome.ret final ∧
        final.trace.instructions =
          recordAll confWindow envMove stIdle.ap [insAt 10, insAt 11, insAt 12] ∧
        final.trace.instructions.length = 13 - 10 ∧
        final.analysisTrigger.getState = false :=
  ⟨by decide, noFail_of_none confWindow rfl rfl, rfl,
    start_stop_window confWindow envMove 10 13 (by decide) rfl rfl
      (noFail_of_none confWindow rfl rfl) stIdle rfl
      [insAt 10, insAt 11, insAt 12] (insAt 13) rfl rfl⟩

/-- C5, as stated, fails on a nested entry: after entry, entry, return, one entry of the
routine is still open, yet the instruction executed there is not recorded; the sequence
completed by the second return is well nested and balanced. -/
theorem symbol_window_counterexample :
    confSymbol.startAnalysisFromAddr = [] ∧ confSymbol.stopAnalysisFromAddr = [] ∧
      stIdle.analysisTrigger.getState = false ∧
      wellNested 0 ([PinEvent.rtnEntry, PinEvent.rtnEntry, PinEvent.rtnExit,
        PinEvent.ins (insAt 3), PinEvent.rtnExit] : List (PinEvent Unit)) = true ∧
      depthAfter 0 ([PinEvent.rtnEntry, PinEvent.rtnEntry, PinEvent.rtnExit,
        PinEvent.ins (insAt 3), PinEvent.rtnExit] : List (PinEvent Unit)) = 0 ∧
      0 < depthAfter 0
        ([PinEvent.rtnEntry, PinEvent.rtnEntry, PinEvent.rtnExit] : List (PinEvent Unit)) ∧
      recorded confSymbol envMove (IMG_Instrumentation confSymbol ["main"]) stIdle
        [PinEvent.rtnEntry, PinEvent.rtnEntry, PinEvent.rtnExit] (insAt 3) = false ∧
      (runEvents confSymbol envMove (IMG_Instrumentation confSymbol ["main"]) stIdle
        [PinEvent.rtnEntry, PinEvent.rtnEntry, PinEvent.rtnExit, PinEvent.ins (insAt 3),
          PinEvent.rtnExit]).state.trace.instructions = [] := by
  refine ⟨rfl, rfl, rfl, rfl, rfl, by decide, rfl, rfl⟩

/-- C5, amended. With the start symbol resolved in the image (so that both hooks are
installed), no start or stop address, no failing callback and the Trigger initially
inactive: an instruction event is recorded if and only if the most recent hook before it is
an entry of the routine; for a sequence without nested entries this is the case if and only
if an entry of the routine is open (the instruction occurs inside the routine); and a
sequence in which the routine is never entered leaves the Trace as it was. -/
theorem symbol_window (conf : PyTritonOptions) (env : Env CONTEXT Inst) (img : IMG)
    (name : String) (hsym : conf.startAnalysisFromSymbol = some name) (himg : name ∈ img)
    (hstart : conf.startAnalysisFromAddr = []) (hstop : conf.stopAnalysisFromAddr = [])
    (hnf : NoFail conf) (st : State Inst) (hidle : st.analysisTrigger.getState = false)
    (pre : List (PinEvent CONTEXT)) (ev : InsEvent CONTEXT) :
    (recorded conf env (IMG_Instrumentation conf img) st pre ev = true ↔
        lastHook false pre = true) ∧
      (noReentry 0 pre = true →
        (recorded conf env (IMG_Instrumentation conf img) st pre ev = true ↔
          0 < depthAfter 0 pre)) ∧
      (∀ evs : List (PinEvent CONTEXT), PinEvent.rtnEntry ∉ evs →
        ∃ final, runEvents conf env (IMG_Instrumentation conf img) st evs = Outcome.ret final ∧
          final.trace = st.trace) := by
  rw [IMG_Instrumentation_resolved conf img name hsym himg]
  have hgate : ∀ (s : Bool) (a : ADDRINT), gateAfter conf s a = s := by
    intro s a
    unfold gateAfter
    simp [hstart, hstop]
  have hrec : recorded conf env
      [{ ipoint := IPOINT.BEFORE, flag := true }, { ipoint := IPOINT.AFTER, flag := false }]
      st pre ev = true ↔ lastHook false pre = true := by
    obtain ⟨s0, h1, h2, _⟩ := runEvents_hooks conf env hstart hstop hnf pre st
    rw [hidle] at h2
    unfold recorded
    rw [runEvents_append, h1]
    simp only [Outcome.bind, runEvents, handleEvent, Outcome.state, decide_eq_true_eq]
    cases hl : lastHook false pre
    · have h0 : gateAfter conf s0.analysisTrigger.getState ev.irb.getAddress = false := by
        rw [hgate, h2, hl]
      rw [callbackEv_inactive conf env ev s0 h0]
      simp [Outcome.bind, Outcome.state, preState]
    · have h0 : gateAfter conf s0.analysisTrigger.getState ev.irb.getAddress = true := by
        rw [hgate, h2, hl]
      rw [callbackEv_active conf env ev s0 hnf h0]
      simp [Outcome.bind, Outcome.state, postState, Trace.addInstruction]
  refine ⟨hrec, ?_, ?_⟩
  · intro hnr
    rw [hrec]
    exact lastHook_iff_depth pre 0 false (by omega) (by simp) hnr
  · intro evs hne
    obtain ⟨final, h1, _, h3⟩ := runEvents_hooks conf env hstart hstop hnf evs st
    exact ⟨final, h1, h3 hne hidle⟩

theorem symbol_window_witness :
    NoFail confSymbol ∧
      noReentry 0 ([PinEvent.rtnEntry, PinEvent.ins (insAt 1)] : List (PinEvent Unit)) = true ∧
      0 < depthAfter 0 ([PinEvent.rtnEntry, PinEvent.ins (insAt 1)] : List (PinEvent Unit)) ∧
      recorded confSymbol envMove (IMG_Instrumentation confSymbol ["main"]) stIdle
        [PinEvent.rtnEntry, PinEvent.ins (insAt 1)] (insAt 2) = true :=
  ⟨noFail_of_none confSymbol rfl rfl, rfl, by decide,
    ((symbol_window confSymbol envMove ["main"] "main" rfl (by decide) rfl rfl
      (noFail_of_none confSymbol rfl rfl) stIdle rfl
      [PinEvent.rtnEntry, PinEvent.ins (insAt 1)] (insAt 2)).2.1 rfl).2 (by decide)⟩

/-- C6. Failing pre-callback is fatal: with a pre-instruction callback that fails on every
call, whatever the sequence of instruction events, the state at the end of the run (at
termination, or at return when the callback was never called) has the initial Trace and the
initial call history: nothing is processed or appended. The run terminates if and only if
some event has its gate active, and it does so at the first such event: the events before it
are bypassed and return, the callback fails on it with `exit(1)`, and the events after it do
not run. -/
theorem failing_pre_callback_fatal (conf : PyTritonOptions) (env : Env CONTEXT Inst)
    (cb : PyCallable) (hcb : conf.callbackBefore = some cb) (hfail : ∀ a t, cb a t = false)
    (st : State Inst) (evs : List (InsEvent CONTEXT)) :
    (runCallbacks conf env st evs).state.trace = st.trace ∧
      (runCallbacks conf env st evs).state.irCalls = st.irCalls ∧
      ((runCallbacks conf env st evs).exited = true ↔
        true ∈ gates conf st.analysisTrigger.getState evs) ∧
      (∀ (pre : List (InsEvent CONTEXT)) (ev : InsEvent CONTEXT) (suf : List (InsEvent CONTEXT)),
        evs = pre ++ ev :: suf →
        (∀ g ∈ gates conf st.analysisTrigger.getState pre, g = false) →
        gateAfter conf (triggerAfter conf st.analysisTrigger.getState pre)
          ev.irb.getAddress = true →
        ∃ s0 s1, runCallbacks conf env st pre = Outcome.ret s0 ∧
          callbackEv conf env ev s0 = Outcome.exit 1 s1 ∧
          runCallbacks conf env st evs = Outcome.exit 1 s1 ∧
          s1.trace = st.trace ∧ s1.irCalls = st.irCalls) := by
  have hbf : ∀ a t, beforeFails conf a t = true := by
    intro a t
    unfold beforeFails
    rw [hcb]
    simp [hfail a t]
  obtain ⟨h1, h2, h3⟩ := runCallbacks_failing conf env hbf evs st
  refine ⟨h1, h2, h3, ?_⟩
  intro pre ev suf hevs hpre hgate
  obtain ⟨s0, r1, r2, r3, r4⟩ := runCallbacks_bypass conf env pre st hpre
  have hg0 : gateAfter conf s0.analysisTrigger.getState ev.irb.getAddress = true := by
    rw [r4]; exact hgate
  have hex : callbackEv conf env ev s0 = Outcome.exit 1 (preState conf ev.irb.getAddress s0) := by
    rw [callbackEv_eq, hg0, hbf]
    rfl
  refine ⟨s0, preState conf ev.irb.getAddress s0, r1, hex, ?_, ?_, ?_⟩
  · rw [hevs, runCallbacks_append, r1]
    simp only [Outcome.bind, runCallbacks, hex]
  · exact r2
  · exact r3

theorem failing_pre_callback_fatal_witness :
    (runCallbacks confFailing envMove stIdle [insAt 1, insAt 2, insAt 3]).state.trace =
        stIdle.trace ∧
      ((runCallbacks confFailing envMove stIdle [insAt 1, insAt 2, insAt 3]).exited = true ↔
        true ∈ gates confFailing stIdle.analysisTrigger.getState
          [insAt 1, insAt 2, insAt 3]) ∧
      ∃ s0 s1, runCallbacks confFailing envMove stIdle [insAt 1] = Outcome.ret s0 ∧
        callbackEv confFailing envMove (insAt 2) s0 = Outcome.exit 1 s1 ∧
        runCallbacks confFailing envMove stIdle [insAt 1, insAt 2, insAt 3] =
          Outcome.exit 1 s1 ∧
        s1.trace = stIdle.trace ∧ s1.irCalls = stIdle.irCalls :=
  have h := failing_pre_callback_fatal confFailing envMove (fun _ _ => false) rfl
    (fun _ _ => rfl) stIdle [insAt 1, insAt 2, insAt 3]
  ⟨h.1, h.2.2.1, h.2.2.2 [insAt 1] (insAt 2) [insAt 3] rfl (by decide) (by decide)⟩

/-- C7, as stated, fails: with no start address, the Trigger active and no callback at all,
a stop address at 1 ends the recording; of the three executed instructions 0, 1, 2 only the
first is in the Trace, which grows by one record and not by three. -/
theorem always_on_counterexample :
    confStop.startAnalysisFromAddr = [] ∧ stActive.analysisTrigger.getState = true ∧
      confStop.callbackBefore = none ∧ confStop.callbackAfter = none ∧
      (runCallbacks confStop envMove stActive [insAt 0, insAt 1, insAt 2]).exited = false ∧
      (runCallbacks confStop envMove stActive
        [insAt 0, insAt 1, insAt 2]).state.trace.instructions = [0] ∧
      (runCallbacks confStop envMove stActive
        [insAt 0, insAt 1, insAt 2]).state.trace.instructions.length ≠
        stActive.trace.instructions.length + [insAt 0, insAt 1, insAt 2].length := by
  refine ⟨rfl, rfl, rfl, rfl, rfl, rfl, by decide⟩

/-- C7, amended. Always-on scenario: for every configuration (so also one whose start-address
set is empty) with no failing callback, every initial state whose Trigger is active and
every sequence of instruction events none of which lies at a stop address, the run returns
and the final Trace is the initial Trace followed by one record per executed instruction, in
execution order; it grows by the length of the sequence and the Trigger is still active. -/
theorem always_on (conf : PyTritonOptions) (env : Env CONTEXT Inst) (hnf : NoFail conf)
    (st : State Inst) (hact : st.analysisTrigger.getState = true)
    (evs : List (InsEvent CONTEXT))
    (hnostop : ∀ ev ∈ evs, ev.irb.getAddress ∉ conf.stopAnalysisFromAddr) :
    ∃ final, runCallbacks conf env st evs = Outcome.ret final ∧
      final.trace.instructions = st.trace.instructions ++ recordAll conf env st.ap evs ∧
      final.trace.instructions.length = st.trace.instructions.length + evs.length ∧
      final.analysisTrigger.getState = true := by
  obtain ⟨final, h1, _, h3, h4⟩ := runCallbacks_noFail conf env hnf evs st
  obtain ⟨hall, htrig⟩ := expectedRecords_allActive conf env evs st.ap hnostop
  rw [hact] at h3 h4
  rw [hall] at h3
  refine ⟨final, h1, h3, ?_, ?_⟩
  · rw [h3, List.length_append, recordAll_length]
  · rw [h4, htrig]

theorem always_on_witness :
    NoFail confStop ∧ stActive.analysisTrigger.getState = true ∧
      (∀ ev ∈ [insAt 0, insAt 2, insAt 0],
        ev.irb.getAddress ∉ confStop.stopAnalysisFromAddr) ∧
      ∃ final, runCallbacks confStop envMove stActive [insAt 0, insAt 2, insAt 0] =
          Outcome.ret final ∧
        final.trace.instructions = stActive.trace.instructions ++
          recordAll confStop envMove stActive.ap [insAt 0, insAt 2, insAt 0] ∧
        final.trace.instructions.length = stActive.trace.instructions.length + 3 ∧
        final.analysisTrigger.getState = true :=
  have hns : ∀ ev ∈ [insAt 0, insAt 2, insAt 0],
      ev.irb.getAddress ∉ confStop.stopAnalysisFromAddr := by
    intro ev hev
    simp only [List.mem_cons, List.mem_singleton, List.not_mem_nil, or_false] at hev
    rcases hev with h | h | h <;> rw [h] <;> decide
  ⟨noFail_of_none confStop rfl rfl, rfl, hns,
    always_on confStop envMove (noFail_of_none confStop rfl rfl) stActive rfl
      [insAt 0, insAt 2, insAt 0] hns⟩

end Claims

end Triton
